import Mathlib

/-!
Shallow embedding of yourtion/node-cmb-open (src/index.ts), the 招商银行
CMB open-platform client SDK, for checking its natural-language
specification.

Modelling conventions:
* a JS object (string-keyed, insertion-ordered, unique keys) is an
  association list `Obj := List (String × Value)`; `Object.keys` order is
  the list order;
* JS scalar values (string / number) are the inductive `Value`; template
  literal coercion is `Value.toStr`; JS truthiness of `data.k` on a
  possibly-absent field is `jsTruthy`;
* ambient effects are explicit parameters: the current time reaching
  `dateStr` is passed as components (or the produced string as `now`),
  `crypto.randomBytes` output is a byte list, `Date.now()` values are
  integer parameters;
* RSA-SHA256 sign/verify with the configured key pair is an abstract
  `SigScheme` (signatures kept in their base64 text form); the property
  `SigScheme.Ideal` states what a sound scheme with a matching key pair
  guarantees and is a hypothesis where a claim presupposes matching keys.
-/

/-- Scalar value stored in a payload object: JS string or (integer) number. -/
inductive Value where
  | str (s : String)
  | num (n : Int)
deriving DecidableEq, Repr

/-- Coercion of a value to a string, as the JS template literal in
`strArr.push` does (String(v)). -/
def Value.toStr : Value → String
  | .str s => s
  | .num n => toString n

/-- JS truthiness of a value: empty string and 0 are falsy. -/
def Value.truthy : Value → Bool
  | .str s => s ≠ ""
  | .num n => n ≠ 0

/-- JS truthiness of an optional field access such as in the test
`if (!data.date)`: an absent field (undefined) is falsy. -/
def jsTruthy : Option Value → Bool
  | none => false
  | some v => v.truthy

/-- A JS object: insertion-ordered association list with unique keys. -/
abbrev Obj := List (String × Value)

/-- Field read, `o[k]`: first (in a well-formed object, only) binding. -/
def Obj.get (o : Obj) (k : String) : Option Value :=
  (o.find? (fun p => p.1 == k)).map (fun p => p.2)

/-- Field write, `o[k] = v`: updates the existing binding in place (JS keeps
the original insertion position) or appends a new one. -/
def Obj.set : Obj → String → Value → Obj
  | [], k, v => [(k, v)]
  | (k', v') :: t, k, v =>
    if k' == k then (k, v) :: t else (k', v') :: Obj.set t k v

/-- Field removal, `delete o[k]`. -/
def Obj.delete (o : Obj) (k : String) : Obj :=
  o.filter (fun p => p.1 != k)

/-- Key list in insertion order, as `Object.keys(o)`. -/
def Obj.keys (o : Obj) : List String :=
  o.map (fun p => p.1)

/-- Rendering of field `k` of `o` as a string, as the template literal does;
an absent field would render as "undefined" (never reached: the loops only
visit keys of the object). -/
def Obj.getStr (o : Obj) (k : String) : String :=
  match o.get k with
  | some v => v.toStr
  | none => "undefined"

/-- Embeds `pad` (src/index.ts line 9): zero-pads a number below 10. -/
def pad (n : Nat) : String :=
  if n < 10 then "0" ++ toString n else toString n

/-- Embeds `dateStr` (src/index.ts line 13): year, then padded month (the
code passes getMonth()+1, so `mo` here is the 1-based month), day, hour,
minute, second, concatenated without separators. -/
def dateStr (y mo d h mi s : Nat) : String :=
  toString y ++ pad mo ++ pad d ++ pad h ++ pad mi ++ pad s

/-- Lowercase hexadecimal digit for a value below 16. -/
def hexChar (n : Nat) : Char :=
  if n < 10 then Char.ofNat (48 + n) else Char.ofNat (87 + n)

/-- Hex encoding of a byte list (Buffer.toString with hex encoding):
two lowercase hex digits per byte. -/
def hexEncode (bytes : List Nat) : List Char :=
  (bytes.map (fun b => [hexChar (b / 16), hexChar (b % 16)])).flatten

/-- Embeds `randomString` (src/index.ts line 24): hex-encode `num` random
bytes (passed explicitly as `bytes`) and keep the first `num` characters. -/
def randomString (num : Nat) (bytes : List Nat) : String :=
  String.mk ((hexEncode bytes).take num)

/-- Embeds `strArr.join` with separator "&" (Array.prototype.join). -/
def joinAmp : List String → String
  | [] => ""
  | [s] => s
  | s :: rest => s ++ "&" ++ joinAmp rest

/-- Lexicographic (code point) string comparison, the order of the default
Array.prototype.sort comparator on the ASCII keys used here. -/
def strLe (a b : String) : Prop := ¬ List.lt b.data a.data

instance strLeDec (a b : String) : Decidable (strLe a b) :=
  @instDecidableNot _ (List.hasDecidableLt b.data a.data)

/-- Embeds `Object.keys(data).sort()`: ascending lexicographic sort
(insertion sort; any comparison sort yields the same list on the duplicate-
free key lists of a JS object). -/
def sortKeys (ks : List String) : List String :=
  ks.insertionSort strLe

/-- Canonical string of an object as built in `_signOrg` and
`verifyRespons` (src/index.ts lines 156-161 and 208-213): sorted keys,
each rendered key=value, joined with "&", no escaping. -/
def canonicalize (o : Obj) : String :=
  joinAmp ((sortKeys o.keys).map (fun k => k ++ "=" ++ o.getStr k))

/-- Abstract RSA-SHA256 signature scheme over one key pair: `sign` uses the
private key and yields the base64 signature text, `verify` uses the public
key and takes the base64 signature text (base64 decode folded in). -/
structure SigScheme where
  sign : String → String
  verify : String → String → Bool

/-- Soundness of a scheme whose verify side holds the public key matching
the sign side's private key: verification succeeds exactly on the signature
of the same message, and signing is injective (no digest collisions). -/
def SigScheme.Ideal (S : SigScheme) : Prop :=
  (∀ m s, S.verify m s = true ↔ s = S.sign m) ∧
    ∀ m m', S.sign m = S.sign m' → m = m'

/-- Configuration of a CMB client instance (constructor, src/index.ts
line 131): merchant id, app id, default client type, host, the loaded
public key ("" when the option was not given), and the crypto scheme
standing for the loaded private key plus the crypto module. -/
structure Config where
  mid : String
  aid : String
  defaultType : String
  host : String
  publicKey : String
  scheme : SigScheme

/-- Embeds `_signOrg` (src/index.ts lines 149-167). `now` is the string
`dateStr()` would produce at the call instant, `rnd` the string
`randomString(16)` would produce from the drawn bytes. Injects `date` and
`random` when falsy, signs `prifix ++ "?" ++ canonical`, attaches `sign`. -/
def signOrg (cfg : Config) (prifix : String) (now rnd : String) (data : Obj) : Obj :=
  let d1 := if jsTruthy (data.get "date") then data else data.set "date" (.str now)
  let d2 := if jsTruthy (d1.get "random") then d1 else d1.set "random" (.str rnd)
  let signStr := prifix ++ "?" ++ canonicalize d2
  d2.set "sign" (.str (cfg.scheme.sign signStr))

/-- Embeds `_signJson` (src/index.ts line 178): prefix is funcName.json. -/
def signJson (cfg : Config) (funcName : String) (now rnd : String) (data : Obj) : Obj :=
  signOrg cfg (funcName ++ ".json") now rnd data

/-- Unreserved characters of encodeURIComponent: alphanumerics and
- _ . ! ~ * ' ( ). -/
def isUnreserved (c : Char) : Bool :=
  c.isAlpha || c.isDigit ||
    (c == '-' || c == '_' || c == '.' || c == '!' || c == '~' ||
      c == '*' || c == '\'' || c == '(' || c == ')')

/-- UTF-8 encoding of a code point as a byte list. -/
def utf8Encode (n : Nat) : List Nat :=
  if n < 128 then [n]
  else if n < 2048 then [192 + n / 64, 128 + n % 64]
  else if n < 65536 then [224 + n / 4096, 128 + (n / 64) % 64, 128 + n % 64]
  else [240 + n / 262144, 128 + (n / 4096) % 64, 128 + (n / 64) % 64, 128 + n % 64]

/-- Uppercase hexadecimal digit for a value below 16. -/
def hexCharUpper (n : Nat) : Char :=
  if n < 10 then Char.ofNat (48 + n) else Char.ofNat (55 + n)

/-- Percent-escape of one byte, %XX with uppercase hex. -/
def pctByte (b : Nat) : String :=
  String.mk ['%', hexCharUpper (b / 16), hexCharUpper (b % 16)]

/-- Embeds JS encodeURIComponent: keeps unreserved characters, percent-
encodes the UTF-8 bytes of every other character. -/
def encodeURIComponent (s : String) : String :=
  String.join (s.data.map (fun c =>
    if isUnreserved c then String.mk [c]
    else String.join ((utf8Encode c.toNat).map pctByte)))

/-- Embeds `_signCmblife` (src/index.ts lines 191-199): signs with prefix
cmblife://funcName, then renders ALL fields of the signed object in
insertion order (Object.keys without sort), each value percent-encoded. -/
def signCmblife (cfg : Config) (funcName : String) (now rnd : String) (data : Obj) : String :=
  let signData := signOrg cfg ("cmblife://" ++ funcName) now rnd data
  "cmblife://" ++ funcName ++ "?" ++
    joinAmp (signData.map (fun p => p.1 ++ "=" ++ encodeURIComponent p.2.toStr))

/-- Embeds `verifyRespons` (src/index.ts lines 201-216) together with its
effect on the caller's object: returns the verification result and the
object as the caller sees it after the call (the code runs
`delete res.sign` on the argument itself, no copy). -/
def verifyResponsFull (cfg : Config) (res : Obj) : Bool × Obj :=
  if cfg.publicKey == "" || !jsTruthy (res.get "sign") then (false, res)
  else
    let signature := res.getStr "sign"
    let res' := res.delete "sign"
    (cfg.scheme.verify (canonicalize res') signature, res')

/-- Verification result alone (the return value of `verifyRespons`). -/
def verifyRespons (cfg : Config) (res : Obj) : Bool :=
  (verifyResponsFull cfg res).1

/-- Bool test whether `hay` starts with `pat` (character lists). -/
def startsWithChars : List Char → List Char → Bool
  | _, [] => true
  | [], _ :: _ => false
  | a :: as, b :: bs => a == b && startsWithChars as bs

/-- First index at which `pat` occurs in `hay`, as String.prototype.indexOf
(none for JS -1). -/
def strIndexOf (hay pat : List Char) : Option Nat :=
  (List.range (hay.length + 1)).find? (fun i => startsWithChars (hay.drop i) pat)

/-- Embeds the callback normalisation in `getApproval` (src/index.ts
line 235): callback.indexOf("http") === 0 ? callback : "javascript:" + callback. -/
def approvalCallback (callback : String) : String :=
  if strIndexOf callback.data "http".data == some 0 then callback
  else "javascript:" ++ callback

/-- Payload assembled by `getApproval` (src/index.ts lines 228-236),
in source insertion order. -/
def getApprovalData (cfg : Config) (state callback : String) : Obj :=
  [("mid", .str cfg.mid), ("aid", .str cfg.aid),
   ("clientType", .str cfg.defaultType), ("state", .str state),
   ("scope", .str "defaultScope"), ("responseType", .str "code"),
   ("callback", .str (approvalCallback callback))]

/-- Embeds `getApproval` (src/index.ts lines 227-238). -/
def getApproval (cfg : Config) (state callback : String) (now rnd : String) : String :=
  signCmblife cfg "approval" now rnd (getApprovalData cfg state callback)

/-- Payload assembled by `increaseTreasure` (src/index.ts lines 266-275);
`now1` and `now2` are the two Date.now() readings (random, refToken). -/
def increaseTreasureData (cfg : Config) (openid : String) (amount : Int) (now1 now2 : Int) : Obj :=
  [("openId", .str openid), ("mid", .str cfg.mid), ("aid", .str cfg.aid),
   ("random", .num now1), ("treasureType", .num 0), ("treasureId", .num 0),
   ("treasureAmount", .num amount), ("refToken", .num now2)]

/-- Signed payload of `increaseTreasure` before POSTing (line 276). -/
def increaseTreasureSigned (cfg : Config) (openid : String) (amount : Int) (now1 now2 : Int) (now rnd : String) : Obj :=
  signJson cfg "increaseTreasure" now rnd (increaseTreasureData cfg openid amount now1 now2)

/-- Payload assembled by `queryIncreaseTreasure` (src/index.ts
lines 286-293); `now1` is the Date.now() reading. -/
def queryIncreaseTreasureData (cfg : Config) (openid refToken : String) (now1 : Int) : Obj :=
  [("openId", .str openid), ("mid", .str cfg.mid), ("aid", .str cfg.aid),
   ("random", .num now1), ("treasureType", .num 0), ("refToken", .str refToken)]

/-- Signed payload of `queryIncreaseTreasure` before POSTing (line 294). -/
def queryIncreaseTreasureSigned (cfg : Config) (openid refToken : String) (now1 : Int) (now rnd : String) : Obj :=
  signJson cfg "queryIncreaseTreasure" now rnd (queryIncreaseTreasureData cfg openid refToken now1)

/-- Outcome of the promise in `request`: resolution with the parsed JSON,
or rejection with the object carrying httpcode and code fields. -/
inductive HttpOutcome (α : Type) where
  | ok (v : α)
  | httpError (httpcode : Nat) (code : Nat)
deriving DecidableEq

/-- Embeds the response handling of `request` (src/index.ts lines 40-51):
a non-200 status rejects before any data listener is attached; a 200 status
buffers the body and resolves with the parsed JSON (`parse` abstracts
JSON.parse). -/
def handleResponse {α : Type} (parse : String → α) (statusCode : Nat) (body : String) : HttpOutcome α :=
  if statusCode ≠ 200 then .httpError statusCode statusCode
  else .ok (parse body)

/-- Concrete ideal scheme used to instantiate counterexamples and witnesses:
signatures are the message tagged "B64:", verification compares. -/
def b64Scheme : SigScheme :=
  { sign := fun m => "B64:" ++ m, verify := fun m s => s == "B64:" ++ m }

/-- Concrete configuration with a configured public key. -/
def cfg0 : Config :=
  { mid := "m1", aid := "a1", defaultType := "h5", host := "open.cmbchina.com",
    publicKey := "pk", scheme := b64Scheme }

/-- Concrete configuration whose publicKey option was not given. -/
def cfgNoPub : Config :=
  { mid := "m1", aid := "a1", defaultType := "h5", host := "open.cmbchina.com",
    publicKey := "", scheme := b64Scheme }

/-- The concrete scheme is ideal: verification succeeds exactly on the
signature of the message, and signing is injective. -/
theorem b64Scheme_ideal : b64Scheme.Ideal := by
  constructor
  · intro m s
    simp [b64Scheme]
  · intro m m' h
    simpa [b64Scheme, String.ext_iff] using h


theorem Obj.keys_cons (p : String × Value) (t : Obj) :
    Obj.keys (p :: t) = p.1 :: Obj.keys t := rfl

theorem Obj.get_cons (p : String × Value) (t : Obj) (k : String) :
    Obj.get (p :: t) k = if p.1 = k then some p.2 else Obj.get t k := by
  by_cases h : p.1 = k
  · simp [Obj.get, List.find?_cons_of_pos, h]
  · simp [Obj.get, List.find?_cons_of_neg, h]

theorem Obj.set_cons (p : String × Value) (t : Obj) (k : String) (v : Value) :
    Obj.set (p :: t) k v = if p.1 = k then (k, v) :: t else p :: Obj.set t k v := by
  by_cases h : p.1 = k <;> simp [Obj.set, h]

theorem Obj.delete_cons (p : String × Value) (t : Obj) (k : String) :
    Obj.delete (p :: t) k = if p.1 = k then Obj.delete t k else p :: Obj.delete t k := by
  by_cases h : p.1 = k <;> simp [Obj.delete, h]

theorem Obj.get_set_self (o : Obj) (k : String) (v : Value) :
    (o.set k v).get k = some v := by
  induction o with
  | nil => simp [Obj.set, Obj.get]
  | cons p t ih =>
    rw [Obj.set_cons]
    by_cases h : p.1 = k
    · simp [h, Obj.get_cons]
    · simp [h, Obj.get_cons, ih]

theorem Obj.get_set_ne (o : Obj) (k k' : String) (v : Value) (h : k' ≠ k) :
    (o.set k v).get k' = o.get k' := by
  have h2 : ¬ (k = k') := fun hh => h hh.symm
  induction o with
  | nil => simp [Obj.set, Obj.get, h2]
  | cons p t ih =>
    rw [Obj.set_cons]
    by_cases hk : p.1 = k
    · simp [hk, Obj.get_cons, h2]
    · rw [if_neg hk, Obj.get_cons, Obj.get_cons]
      by_cases hk' : p.1 = k'
      · rw [if_pos hk', if_pos hk']
      · rw [if_neg hk', if_neg hk', ih]

theorem Obj.keys_set_of_mem (o : Obj) (k : String) (v : Value) (h : k ∈ o.keys) :
    (o.set k v).keys = o.keys := by
  induction o with
  | nil => simp [Obj.keys] at h
  | cons p t ih =>
    rw [Obj.set_cons]
    by_cases hk : p.1 = k
    · simp [hk, Obj.keys_cons]
    · rw [Obj.keys_cons, List.mem_cons] at h
      rcases h with h | h
    

      · exact absurd h.symm hk
      · rw [if_neg hk, Obj.keys_cons, ih h, Obj.keys_cons]

theorem Obj.set_of_not_mem (o : Obj) (k : String) (v : Value) (h : k ∉ o.keys) :
    o.set k v = o ++ [(k, v)] := by
  induction o with
  | nil => simp [Obj.set]
  | cons p t ih =>
    rw [Obj.keys_cons, List.mem_cons] at h
    push_neg at h
    rw [Obj.set_cons, if_neg (fun hh => h.1 hh.symm)]
    simp [ih h.2]

theorem Obj.mem_keys_set (o : Obj) (k j : String) (v : Value) :
    j ∈ (o.set k v).keys ↔ j ∈ o.keys ∨ j = k := by
  induction o with
  | nil => simp [Obj.set, Obj.keys]
  | cons p t ih =>
    rw [Obj.set_cons]
    by_cases hk : p.1 = k
    · rw [if_pos hk, Obj.keys_cons, Obj.keys_cons, List.mem_cons, List.mem_cons, hk]
      tauto
    · rw [if_neg hk, Obj.keys_cons, Obj.keys_cons, List.mem_cons, List.mem_cons, ih]
      tauto

theorem Obj.delete_of_not_mem (o : Obj) (k : String) (h : k ∉ o.keys) :
    o.delete k = o := by
  induction o with
  | nil => simp [Obj.delete]
  | cons p t ih =>
    rw [Obj.keys_cons, List.mem_cons] at h
    push_neg at h
    rw [Obj.delete_cons, if_neg (fun hh => h.1 hh.symm)]
    simp [ih h.2]

theorem Obj.delete_append_single (o : Obj) (k : String) (v : Value) (h : k ∉ o.keys) :
    Obj.delete (o ++ [(k, v)]) k = o := by
  induction o with
  | nil => simp [Obj.delete]
  | cons p t ih =>
    rw [Obj.keys_cons, List.mem_cons] at h
    push_neg at h
    rw [List.cons_append, Obj.delete_cons, if_neg (fun hh => h.1 hh.symm)]
    simp [ih h.2]

theorem Obj.get_append_single_self (o : Obj) (k : String) (v : Value) (h : k ∉ o.keys) :
    Obj.get (o ++ [(k, v)]) k = some v := by
  induction o with
  | nil => simp [Obj.get]
  | cons p t ih =>
    rw [Obj.keys_cons, List.mem_cons] at h
    push_neg at h
    rw [List.cons_append, Obj.get_cons, if_neg (fun hh => h.1 hh.symm)]
    exact ih h.2

theorem strAppend_left_cancel {a b c : String} (h : a ++ b = a ++ c) : b = c := by
  rw [String.ext_iff, String.data_append, String.data_append] at h
  exact String.ext (List.append_cancel_left h)

theorem strAppend_right_cancel {a b c : String} (h : a ++ c = b ++ c) : a = b := by
  rw [String.ext_iff, String.data_append, String.data_append] at h
  exact String.ext (List.append_cancel_right h)

theorem joinAmp_cons (s : String) (l : List String) (h : l ≠ []) :
    joinAmp (s :: l) = s ++ "&" ++ joinAmp l := by
  cases l with
  | nil => exact absurd rfl h
  | cons a t => rfl

theorem joinAmp_single_inj (P S : List String) (x y : String)
    (h : joinAmp (P ++ x :: S) = joinAmp (P ++ y :: S)) : x = y := by
  induction P with
  | nil =>
    cases S with
    | nil => simpa [joinAmp] using h
    | cons a t =>
      rw [List.nil_append, List.nil_append, joinAmp_cons x (a :: t) (by simp),
        joinAmp_cons y (a :: t) (by simp)] at h
      exact strAppend_right_cancel (strAppend_right_cancel h)
  | cons p P' ih =>
    rw [List.cons_append, List.cons_append, joinAmp_cons p (P' ++ x :: S) (by simp),
      joinAmp_cons p (P' ++ y :: S) (by simp)] at h
    exact ih (strAppend_left_cancel h)

theorem sortKeys_perm (ks : List String) : List.Perm (sortKeys ks) ks :=
  List.perm_insertionSort _ ks

theorem strLe_iff (a b : String) : strLe a b ↔ ¬ List.Lex (· < ·) b.data a.data := by
  unfold strLe
  rw [List.lt_iff_lex_lt]

instance : IsTrichotomous Char (· < ·) := ⟨lt_trichotomy⟩

instance : IsAsymm Char (· < ·) := ⟨fun _ _ => lt_asymm⟩

instance : IsTrans Char (· < ·) := ⟨fun _ _ _ => lt_trans⟩

theorem lexCh_tri (x y : List Char) :
    List.Lex (· < ·) x y ∨ x = y ∨ List.Lex (· < ·) y x :=
  trichotomous_of (List.Lex (· < ·)) x y

theorem lexCh_asymm {x y : List Char} (h : List.Lex (· < ·) x y) :
    ¬ List.Lex (· < ·) y x := asymm h

theorem lexCh_trans {x y z : List Char} (h1 : List.Lex (· < ·) x y)
    (h2 : List.Lex (· < ·) y z) : List.Lex (· < ·) x z :=
  trans_of (List.Lex (· < ·)) h1 h2

instance : IsAntisymm String strLe :=
  ⟨fun a b hab hba => by
    rw [strLe_iff] at hab hba
    rcases lexCh_tri b.data a.data with h | h | h
    · exact absurd h hab
    · exact String.ext h.symm
    · exact absurd h hba⟩

instance : IsTotal String strLe :=
  ⟨fun a b => by
    rw [strLe_iff, strLe_iff]
    by_cases h : List.Lex (· < ·) b.data a.data
    · exact Or.inr (lexCh_asymm h)
    · exact Or.inl h⟩

instance : IsTrans String strLe :=
  ⟨fun a b c hab hbc => by
    rw [strLe_iff] at hab hbc ⊢
    intro h
    rcases lexCh_tri a.data b.data with h2 | h2 | h2
    · exact hbc (lexCh_trans h h2)
    · exact hbc (h2 ▸ h)
    · exact hab h2⟩

theorem sortKeys_sorted (ks : List String) : (sortKeys ks).Sorted strLe :=
  List.sorted_insertionSort strLe ks

theorem sortKeys_eq_of_perm {ks1 ks2 : List String} (h : List.Perm ks1 ks2) :
    sortKeys ks1 = sortKeys ks2 :=
  List.eq_of_perm_of_sorted ((sortKeys_perm ks1).trans (h.trans (sortKeys_perm ks2).symm))
    (sortKeys_sorted ks1) (sortKeys_sorted ks2)

theorem keyval_unique (o : Obj) (hnd : o.keys.Nodup) {p q : String × Value}
    (hp : p ∈ o) (hq : q ∈ o) (hk : p.1 = q.1) : p = q := by
  induction o with
  | nil => cases hp
  | cons a t ih =>
    rw [Obj.keys_cons, List.nodup_cons] at hnd
    rcases List.mem_cons.mp hp with hp1 | hp1 <;> rcases List.mem_cons.mp hq with hq1 | hq1
    · rw [hp1, hq1]
    · exact absurd (hp1 ▸ hk ▸ List.mem_map_of_mem Prod.fst hq1) hnd.1
    · exact absurd (hq1 ▸ hk ▸ List.mem_map_of_mem Prod.fst hp1) hnd.1
    · exact ih hnd.2 hp1 hq1

theorem Obj.get_eq_none_iff (o : Obj) (k : String) :
    o.get k = none ↔ k ∉ o.keys := by
  rw [Obj.get, Option.map_eq_none', List.find?_eq_none]
  constructor
  · intro h hmem
    obtain ⟨p, hp, hp1⟩ := List.mem_map.mp hmem
    exact h p hp (by simpa using hp1)
  · intro h p hp hbeq
    exact h (List.mem_map.mpr ⟨p, hp, by simpa using hbeq⟩)

theorem Obj.get_eq_some_iff (o : Obj) (hnd : o.keys.Nodup) (k : String) (v : Value) :
    o.get k = some v ↔ (k, v) ∈ o := by
  constructor
  · intro h
    rw [Obj.get] at h
    obtain ⟨p, hfind, hp2⟩ := Option.map_eq_some'.mp h
    have hp := List.mem_of_find?_eq_some hfind
    have hpk : p.1 = k := by simpa using List.find?_some hfind
    have : p = (k, v) := by
      cases p
      simp_all
    exact this ▸ hp
  · intro h
    have hsome : (o.find? (fun p => p.1 == k)).isSome := by
      rw [List.find?_isSome]
      exact ⟨(k, v), h, by simp⟩
    obtain ⟨p, hfind⟩ := Option.isSome_iff_exists.mp hsome
    have hp := List.mem_of_find?_eq_some hfind
    have hpk : p.1 = k := by simpa using List.find?_some hfind
    have : p = (k, v) := keyval_unique o hnd hp h (by simpa using hpk)
    rw [Obj.get, hfind, this]
    rfl

theorem Obj.get_perm (o1 o2 : Obj) (hperm : List.Perm o1 o2) (hnd : o1.keys.Nodup) (k : String) :
    o1.get k = o2.get k := by
  have hnd2 : o2.keys.Nodup := ((hperm.map Prod.fst).nodup_iff).mp hnd
  cases h1 : o1.get k with
  | none =>
    have := (Obj.get_eq_none_iff o1 k).mp h1
    exact ((Obj.get_eq_none_iff o2 k).mpr
      (fun hm => this ((hperm.map Prod.fst).mem_iff.mpr hm))).symm
  | some v =>
    have := (Obj.get_eq_some_iff o1 hnd k v).mp h1
    exact ((Obj.get_eq_some_iff o2 hnd2 k v).mpr (hperm.mem_iff.mp this)).symm

theorem canonicalize_perm (o1 o2 : Obj) (hperm : List.Perm o1 o2) (hnd : o1.keys.Nodup) :
    canonicalize o1 = canonicalize o2 := by
  unfold canonicalize
  have hk : sortKeys o1.keys = sortKeys o2.keys := by
    apply sortKeys_eq_of_perm
    simp only [Obj.keys]
    exact hperm.map (fun p : String × Value => p.1)
  rw [hk]
  apply congrArg
  apply List.map_congr_left
  intro a _
  rw [Obj.getStr, Obj.getStr, Obj.get_perm o1 o2 hperm hnd a]

theorem Obj.getStr_set_self (o : Obj) (k : String) (v : Value) :
    (o.set k v).getStr k = v.toStr := by
  simp [Obj.getStr, Obj.get_set_self]

theorem Obj.getStr_set_ne (o : Obj) (k k' : String) (v : Value) (h : k' ≠ k) :
    (o.set k v).getStr k' = o.getStr k' := by
  simp [Obj.getStr, Obj.get_set_ne o k k' v h]

theorem Obj.keys_append (o o' : Obj) : Obj.keys (o ++ o') = Obj.keys o ++ Obj.keys o' :=
  List.map_append _ o o'

theorem Obj.keys_set_nodup (o : Obj) (k : String) (v : Value) (h : o.keys.Nodup) :
    (o.set k v).keys.Nodup := by
  by_cases hm : k ∈ o.keys
  · rw [Obj.keys_set_of_mem o k v hm]
    exact h
  · rw [Obj.set_of_not_mem o k v hm, Obj.keys_append, List.nodup_append]
    refine ⟨h, List.nodup_singleton k, ?_⟩
    intro a ha hmem
    rw [show Obj.keys [(k, v)] = [k] from rfl, List.mem_singleton] at hmem
    exact hm (hmem ▸ ha)

theorem Obj.get_append_left (o rest : Obj) (k : String) (h : k ∈ o.keys) :
    Obj.get (o ++ rest) k = Obj.get o k := by
  induction o with
  | nil => simp [Obj.keys] at h
  | cons p t ih =>
    rw [List.cons_append, Obj.get_cons, Obj.get_cons]
    by_cases hp : p.1 = k
    · rw [if_pos hp, if_pos hp]
    · rw [if_neg hp, if_neg hp]
      rw [Obj.keys_cons, List.mem_cons] at h
      rcases h with h | h
      · exact absurd h.symm hp
      · exact ih h

theorem Obj.set_append_left (o rest : Obj) (k : String) (v : Value) (h : k ∈ o.keys) :
    Obj.set (o ++ rest) k v = Obj.set o k v ++ rest := by
  induction o with
  | nil => simp [Obj.keys] at h
  | cons p t ih =>
    rw [List.cons_append, Obj.set_cons, Obj.set_cons]
    by_cases hp : p.1 = k
    · rw [if_pos hp, if_pos hp, List.cons_append]
    · rw [if_neg hp, if_neg hp]
      rw [Obj.keys_cons, List.mem_cons] at h
      rcases h with h | h
      · exact absurd h.symm hp
      · rw [List.cons_append, ih h]

theorem Obj.set_append_single_self (o : Obj) (k : String) (w v : Value) (h : k ∉ o.keys) :
    Obj.set (o ++ [(k, w)]) k v = o ++ [(k, v)] := by
  induction o with
  | nil => simp [Obj.set]
  | cons p t ih =>
    rw [Obj.keys_cons, List.mem_cons] at h
    push_neg at h
    rw [List.cons_append, Obj.set_cons, if_neg (fun hh => h.1 hh.symm), ih h.2,
      List.cons_append]

theorem canonicalize_set_ne (o : Obj) (hnd : o.keys.Nodup) (k : String) (hk : k ∈ o.keys)
    (v' : Value) (hne : v'.toStr ≠ o.getStr k) :
    canonicalize (o.set k v') ≠ canonicalize o := by
  intro heq
  unfold canonicalize at heq
  rw [Obj.keys_set_of_mem o k v' hk] at heq
  have hks : k ∈ sortKeys o.keys := ((sortKeys_perm o.keys).mem_iff).mpr hk
  have hndks : (sortKeys o.keys).Nodup := ((sortKeys_perm o.keys).nodup_iff).mpr hnd
  obtain ⟨P, S, hPS⟩ := List.append_of_mem hks
  rw [hPS] at heq hndks
  rw [List.nodup_append, List.nodup_cons] at hndks
  have hkP : k ∉ P := fun hmem => hndks.2.2 hmem (List.mem_cons_self k S)
  have hkS : k ∉ S := hndks.2.1.1
  rw [List.map_append, List.map_append, List.map_cons, List.map_cons] at heq
  have hmapP : P.map (fun j => j ++ "=" ++ (o.set k v').getStr j) =
      P.map (fun j => j ++ "=" ++ o.getStr j) := by
    apply List.map_congr_left
    intro j hj
    rw [Obj.getStr_set_ne o k j v' (fun hh => hkP (hh ▸ hj))]
  have hmapS : S.map (fun j => j ++ "=" ++ (o.set k v').getStr j) =
      S.map (fun j => j ++ "=" ++ o.getStr j) := by
    apply List.map_congr_left
    intro j hj
    rw [Obj.getStr_set_ne o k j v' (fun hh => hkS (hh ▸ hj))]
  rw [hmapP, hmapS, Obj.getStr_set_self] at heq
  exact hne (strAppend_left_cancel (joinAmp_single_inj _ _ _ _ heq))

theorem prifix_canonical_ne (p c : String) : p ++ "?" ++ c ≠ c := by
  intro h
  have hlen := congrArg (fun s => s.data.length) h
  simp only [String.data_append, List.length_append] at hlen
  have h1 : (['?'] : List Char).length = 1 := rfl
  omega

/-- Default-injection stage of `_signOrg` (src/index.ts lines 150-155):
the payload after the date and random fields have been filled in when
falsy, before the signature is computed. -/
def injectDefaults (data : Obj) (now rnd : String) : Obj :=
  let d1 := if jsTruthy (data.get "date") then data else data.set "date" (.str now)
  if jsTruthy (d1.get "random") then d1 else d1.set "random" (.str rnd)

theorem signOrg_eq (cfg : Config) (prifix now rnd : String) (data : Obj) :
    signOrg cfg prifix now rnd data =
      (injectDefaults data now rnd).set "sign"
        (.str (cfg.scheme.sign (prifix ++ "?" ++ canonicalize (injectDefaults data now rnd)))) := rfl

theorem injectDefaults_no_sign (data : Obj) (now rnd : String)
    (h : "sign" ∉ data.keys) : "sign" ∉ (injectDefaults data now rnd).keys := by
  unfold injectDefaults
  by_cases h1 : jsTruthy (data.get "date") = true
  · rw [if_pos h1]
    by_cases h2 : jsTruthy (data.get "random") = true
    · rw [if_pos h2]
      exact h
    · rw [if_neg h2]
      rw [Obj.mem_keys_set]
      rintro (hm | hm)
      · exact h hm
      · exact absurd hm (by decide)
  · rw [if_neg h1]
    by_cases h2 : jsTruthy ((data.set "date" (.str now)).get "random") = true
    · rw [if_pos h2]
      rw [Obj.mem_keys_set]
      rintro (hm | hm)
      · exact h hm
      · exact absurd hm (by decide)
    · rw [if_neg h2]
      rw [Obj.mem_keys_set, Obj.mem_keys_set]
      rintro ((hm | hm) | hm)
      · exact h hm
      · exact absurd hm (by decide)
      · exact absurd hm (by decide)

theorem injectDefaults_nodup (data : Obj) (now rnd : String)
    (h : data.keys.Nodup) : (injectDefaults data now rnd).keys.Nodup := by
  unfold injectDefaults
  by_cases h1 : jsTruthy (data.get "date") = true
  · rw [if_pos h1]
    by_cases h2 : jsTruthy (data.get "random") = true
    · rw [if_pos h2]
      exact h
    · rw [if_neg h2]
      exact Obj.keys_set_nodup _ _ _ h
  · rw [if_neg h1]
    by_cases h2 : jsTruthy ((data.set "date" (.str now)).get "random") = true
    · rw [if_pos h2]
      exact Obj.keys_set_nodup _ _ _ h
    · rw [if_neg h2]
      exact Obj.keys_set_nodup _ _ _ (Obj.keys_set_nodup _ _ _ h)

theorem Obj.getStr_append_single (o : Obj) (k : String) (w : Value) (h : k ∉ o.keys) :
    Obj.getStr (o ++ [(k, w)]) k = w.toStr := by
  simp [Obj.getStr, Obj.get_append_single_self o k w h]

theorem Obj.getStr_append_left (o rest : Obj) (k : String) (h : k ∈ o.keys) :
    Obj.getStr (o ++ rest) k = Obj.getStr o k := by
  simp [Obj.getStr, Obj.get_append_left o rest k h]

theorem verify_append_sign (cfg : Config) (o : Obj) (w : Value)
    (hpk : cfg.publicKey ≠ "") (hnosign : "sign" ∉ o.keys) :
    verifyRespons cfg (o ++ [("sign", w)]) =
      if w.truthy then cfg.scheme.verify (canonicalize o) w.toStr else false := by
  unfold verifyRespons verifyResponsFull
  rw [Obj.get_append_single_self o "sign" w hnosign]
  by_cases ht : w.truthy = true
  · have hcond : (cfg.publicKey == "" || !jsTruthy (some w)) = false := by
      simp [jsTruthy, ht, hpk]
    rw [hcond, if_pos ht]
    simp only [Bool.false_eq_true, if_false]
    rw [Obj.delete_append_single o "sign" w hnosign,
      Obj.getStr_append_single o "sign" w hnosign]
  · have hcond : (cfg.publicKey == "" || !jsTruthy (some w)) = true := by
      simp [jsTruthy, ht]
    rw [hcond, if_neg ht]
    simp

/-- Response object carrying a signature computed over the canonical string
with NO prefix: this is the shape `verifyRespons` checks (the platform's
responses are signed this way per the verification invariant of the spec). -/
def serverSigned (S : SigScheme) (data : Obj) : Obj :=
  data ++ [("sign", Value.str (S.sign (canonicalize data)))]

/-- C1 (amended): with an ideal matching key pair and the public key
configured, (a) a response whose sign field is a signature of the canonical
string WITHOUT prefix verifies true; (b) the round trip as claimed fails:
the output of _signOrg, whose signature covers prifix ++ "?" ++ canonical,
is always rejected by verifyRespons, which recomputes the canonical string
with no prefix; (c) changing the rendered value of any field of a verifiable
response (the sign field included) makes verifyRespons return false. -/
theorem c1_sign_verify_roundtrip (cfg : Config) (hideal : cfg.scheme.Ideal)
    (hpk : cfg.publicKey ≠ "") (data : Obj) (hnosign : "sign" ∉ data.keys)
    (hnd : data.keys.Nodup) :
    (cfg.scheme.sign (canonicalize data) ≠ "" →
      verifyRespons cfg (serverSigned cfg.scheme data) = true) ∧
    (∀ prifix now rnd, verifyRespons cfg (signOrg cfg prifix now rnd data) = false) ∧
    (∀ k v', k ∈ (serverSigned cfg.scheme data).keys →
      v'.toStr ≠ (serverSigned cfg.scheme data).getStr k →
      verifyRespons cfg ((serverSigned cfg.scheme data).set k v') = false) := by
  refine ⟨?_, ?_, ?_⟩
  · intro hsig
    rw [serverSigned, verify_append_sign cfg data _ hpk hnosign]
    rw [if_pos (by simpa [Value.truthy] using hsig)]
    exact (hideal.1 _ _).mpr rfl
  · intro prifix now rnd
    have hns := injectDefaults_no_sign data now rnd hnosign
    rw [signOrg_eq, Obj.set_of_not_mem _ _ _ hns, verify_append_sign cfg _ _ hpk hns]
    by_cases hz : cfg.scheme.sign (prifix ++ "?" ++ canonicalize (injectDefaults data now rnd)) = ""
    · rw [if_neg (by simpa [Value.truthy] using hz)]
    · rw [if_pos (by simpa [Value.truthy] using hz)]
      by_contra hb
      rw [Bool.not_eq_false] at hb
      have heqsig := (hideal.1 _ _).mp hb
      have := hideal.2 _ _ heqsig
      exact prifix_canonical_ne prifix (canonicalize (injectDefaults data now rnd)) this
  · intro k v' hkmem hne
    rw [serverSigned, Obj.keys_append, List.mem_append] at hkmem
    rcases hkmem with hk | hk
    · have hk : k ∈ data.keys := hk
      have hksign : k ≠ "sign" := fun hh => hnosign (hh ▸ hk)
      have hne2 : v'.toStr ≠ data.getStr k := by
        rw [serverSigned, Obj.getStr_append_left data _ k hk] at hne
        exact hne
      have hns' : "sign" ∉ (data.set k v').keys := by
        rw [Obj.mem_keys_set]
        rintro (hm | hm)
        · exact hnosign hm
        · exact hksign hm.symm
      rw [serverSigned, Obj.set_append_left data _ k v' hk,
        verify_append_sign cfg (data.set k v') _ hpk hns']
      by_cases hz : cfg.scheme.sign (canonicalize data) = ""
      · rw [if_neg (by simpa [Value.truthy] using hz)]
      · rw [if_pos (by simpa [Value.truthy] using hz)]
        by_contra hb
        rw [Bool.not_eq_false] at hb
        have heqsig := (hideal.1 _ _).mp hb
        have := hideal.2 _ _ heqsig
        exact canonicalize_set_ne data hnd k hk v' hne2 this.symm
    · have hk : k = "sign" := by simpa [Obj.keys] using hk
      subst hk
      have hne2 : v'.toStr ≠ cfg.scheme.sign (canonicalize data) := by
        rw [serverSigned,
          Obj.getStr_append_single data "sign" _ hnosign] at hne
        exact hne
      rw [serverSigned, Obj.set_append_single_self data "sign" _ v' hnosign,
        verify_append_sign cfg data v' hpk hnosign]
      by_cases ht : v'.truthy = true
      · rw [if_pos ht]
        by_contra hb
        rw [Bool.not_eq_false] at hb
        exact hne2 ((hideal.1 _ _).mp hb)
      · rw [if_neg ht]

/-- C1 (witness): the amended round trip evaluated at a concrete payload,
configuration and ideal scheme. -/
theorem c1_sign_verify_roundtrip_witness :
    verifyRespons cfg0 (serverSigned b64Scheme [("a", Value.str "1")]) = true ∧
    verifyRespons cfg0 (signOrg cfg0 "accessToken.json" "20200102030405"
      "00ff00ff00ff00ff" [("a", Value.str "1")]) = false ∧
    verifyRespons cfg0 ((serverSigned b64Scheme [("a", Value.str "1")]).set "a"
      (Value.str "2")) = false := by
  have h := c1_sign_verify_roundtrip cfg0 b64Scheme_ideal (by decide)
    [("a", Value.str "1")] (by decide) (by decide)
  exact ⟨h.1 (by decide), h.2.1 "accessToken.json" "20200102030405" "00ff00ff00ff00ff",
    h.2.2 "a" (Value.str "2") (by decide) (by decide)⟩

/-- C1 (counterexample to the claim as stated): with an ideal matching key
pair and the public key configured, signing a concrete payload with _signOrg
and then calling verifyRespons on the signed payload returns false, not
true, because the signature covers the prefixed string while verification
recomputes the canonical string without prefix. -/
theorem c1_claim_counterexample :
    b64Scheme.Ideal ∧ cfg0.publicKey ≠ "" ∧
    verifyRespons cfg0 (signOrg cfg0 "accessToken.json" "20200102030405"
      "00ff00ff00ff00ff" [("a", Value.str "1")]) = false :=
  ⟨b64Scheme_ideal, by decide, by decide⟩

/-- C2: canonicalization is permutation-invariant and deterministic: two
payload objects holding the same key-value pairs in different insertion
orders (and, as for every JS object, duplicate-free keys) canonicalize to
the same string. -/
theorem c2_canonicalize_perm_invariant (d1 d2 : Obj) (hnd : d1.keys.Nodup)
    (hperm : List.Perm d1 d2) : canonicalize d1 = canonicalize d2 :=
  canonicalize_perm d1 d2 hperm hnd

/-- C2 (witness): two concrete insertion orders of the same three fields. -/
theorem c2_canonicalize_perm_invariant_witness :
    canonicalize [("b", Value.str "2"), ("a", Value.str "1"), ("c", Value.num 3)] =
      canonicalize [("c", Value.num 3), ("a", Value.str "1"), ("b", Value.str "2")] :=
  c2_canonicalize_perm_invariant _ _ (by decide) (by decide)

/-- Signature base string of getApproval: the cmblife://approval prefix,
"?", and the canonical string of the payload after date and random are
injected (getApproval's payload never carries them on entry). -/
def approvalSignStr (cfg : Config) (state callback now rnd : String) : String :=
  "cmblife://approval?" ++
    canonicalize (((getApprovalData cfg state callback).set "date" (.str now)).set
      "random" (.str rnd))

/-- Deep-link URL rendered the way the claim words it: percent-encoded
k=v pairs SORTED by key (for comparison against the code's rendering,
which keeps insertion order). -/
def specSortedUrl (funcName : String) (signData : Obj) : String :=
  "cmblife://" ++ funcName ++ "?" ++
    joinAmp ((sortKeys signData.keys).map
      (fun k => k ++ "=" ++ encodeURIComponent (signData.getStr k)))

set_option maxRecDepth 100000 in
/-- C3 (amended): the deep-link URL of getApproval is
cmblife://approval? followed by the percent-encoded k=v pairs in PAYLOAD
INSERTION ORDER (mid, aid, clientType, state, scope, responseType,
callback, then the injected date and random), ending with the sign field
holding the percent-encoded signature. -/
theorem c3_deeplink_format (cfg : Config) (state callback now rnd : String) :
    getApproval cfg state callback now rnd =
      "cmblife://approval?" ++
        ("mid=" ++ encodeURIComponent cfg.mid ++ "&" ++
          ("aid=" ++ encodeURIComponent cfg.aid ++ "&" ++
            ("clientType=" ++ encodeURIComponent cfg.defaultType ++ "&" ++
              ("state=" ++ encodeURIComponent state ++ "&" ++
                ("scope=defaultScope&" ++
                  ("responseType=code&" ++
                    ("callback=" ++ encodeURIComponent (approvalCallback callback) ++ "&" ++
                      ("date=" ++ encodeURIComponent now ++ "&" ++
                        ("random=" ++ encodeURIComponent rnd ++ "&" ++
                          ("sign=" ++ encodeURIComponent
                            (cfg.scheme.sign
                              (approvalSignStr cfg state callback now rnd)))))))))))) := rfl

set_option maxRecDepth 100000 in
/-- C3 (counterexample to the claim as stated): at a concrete
configuration and input, the URL getApproval produces differs from the
URL with the pairs sorted by key (the actual URL starts with the mid
field; sorted order would put aid first). -/
theorem c3_counterexample :
    getApproval cfg0 "s1" "http://cb" "20200102030405" "00ff00ff00ff00ff" ≠
      specSortedUrl "approval"
        (signOrg cfg0 "cmblife://approval" "20200102030405" "00ff00ff00ff00ff"
          (getApprovalData cfg0 "s1" "http://cb")) := by decide

theorem Obj.get_delete_self (o : Obj) (k : String) : (o.delete k).get k = none := by
  induction o with
  | nil => simp [Obj.delete, Obj.get]
  | cons p t ih =>
    rw [Obj.delete_cons]
    by_cases h : p.1 = k
    · rw [if_pos h]
      exact ih
    · rw [if_neg h, Obj.get_cons, if_neg h]
      exact ih

/-- C4 (amended): verifyRespons mutates its argument rather than a working
copy: when a public key is configured and the response carries a truthy
sign field, the call deletes sign from the caller's mapping and computes
the result over the canonical string of the remaining fields with no
prefix; when verification is skipped the mapping is left untouched. -/
theorem c4_verify_mutates_caller (cfg : Config) (res : Obj) :
    (cfg.publicKey ≠ "" → jsTruthy (res.get "sign") = true →
      (verifyResponsFull cfg res).2 = res.delete "sign" ∧
      ((verifyResponsFull cfg res).2).get "sign" = none ∧
      (verifyResponsFull cfg res).1 =
        cfg.scheme.verify (canonicalize (res.delete "sign")) (res.getStr "sign")) ∧
    (cfg.publicKey = "" ∨ jsTruthy (res.get "sign") = false →
      verifyResponsFull cfg res = (false, res)) := by
  constructor
  · intro hpk ht
    have hcond : (cfg.publicKey == "" || !jsTruthy (res.get "sign")) = false := by
      simp [hpk, ht]
    rw [verifyResponsFull, hcond]
    simp only [Bool.false_eq_true, if_false]
    exact ⟨trivial, Obj.get_delete_self res "sign", trivial⟩
  · intro hskip
    have hcond : (cfg.publicKey == "" || !jsTruthy (res.get "sign")) = true := by
      rcases hskip with h | h
      · simp [h]
      · simp [h]
    rw [verifyResponsFull, hcond]
    simp

/-- C4 (witness): concrete instantiations of both branches: a verifying
call deletes sign from the caller's object, a skipped call leaves the
object as it was. -/
theorem c4_verify_mutates_caller_witness :
    (verifyResponsFull cfg0 [("a", Value.str "1"), ("sign", Value.str "B64:a=1")]).2 =
      [("a", Value.str "1")] ∧
    ((verifyResponsFull cfg0 [("a", Value.str "1"), ("sign", Value.str "B64:a=1")]).2).get
      "sign" = none ∧
    verifyResponsFull cfgNoPub [("a", Value.str "1"), ("sign", Value.str "B64:a=1")] =
      (false, [("a", Value.str "1"), ("sign", Value.str "B64:a=1")]) := by
  have h1 := c4_verify_mutates_caller cfg0 [("a", Value.str "1"), ("sign", Value.str "B64:a=1")]
  have h2 := c4_verify_mutates_caller cfgNoPub [("a", Value.str "1"), ("sign", Value.str "B64:a=1")]
  refine ⟨?_, (h1.1 (by decide) (by decide)).2.1, h2.2 (Or.inl rfl)⟩
  rw [(h1.1 (by decide) (by decide)).1]
  decide

/-- C4 (counterexample to the claim as stated): after a verifying call on
a concrete response the caller's mapping is NOT unchanged: its sign field
is gone. -/
theorem c4_counterexample :
    (verifyResponsFull cfg0 [("a", Value.str "1"), ("sign", Value.str "B64:a=1")]).2 ≠
      [("a", Value.str "1"), ("sign", Value.str "B64:a=1")] ∧
    ((verifyResponsFull cfg0 [("a", Value.str "1"), ("sign", Value.str "B64:a=1")]).2).get
      "sign" = none := by decide

/-- Lowercase hexadecimal digit test. -/
def isHexLowerChar (c : Char) : Bool :=
  c.isDigit || ('a' ≤ c && c ≤ 'f')

theorem hexEncode_length (bytes : List Nat) : (hexEncode bytes).length = 2 * bytes.length := by
  induction bytes with
  | nil => rfl
  | cons b t ih =>
    simp only [hexEncode, List.map_cons, List.flatten_cons, List.length_append,
      List.length_cons, List.length_nil] at ih ⊢
    omega

theorem hexEncode_take (bytes : List Nat) (m : Nat) :
    hexEncode (bytes.take m) = (hexEncode bytes).take (2 * m) := by
  induction bytes generalizing m with
  | nil => simp [hexEncode]
  | cons b t ih =>
    cases m with
    | zero => simp [hexEncode]
    | succ m =>
      simp only [List.take_succ_cons, hexEncode, List.map_cons, List.flatten_cons] at ih ⊢
      rw [show 2 * (m + 1) = (2 * m) + 1 + 1 from rfl]
      simp only [List.take_succ_cons, List.cons_append, List.nil_append]
      rw [ih]

theorem hexChar_isHexLower : ∀ k, k < 16 → isHexLowerChar (hexChar k) = true := by decide

theorem hexEncode_chars (bytes : List Nat) (h : ∀ b ∈ bytes, b < 256) :
    ∀ c ∈ hexEncode bytes, isHexLowerChar c = true := by
  induction bytes with
  | nil => simp [hexEncode]
  | cons b t ih =>
    intro c hc
    simp only [hexEncode, List.map_cons, List.flatten_cons, List.mem_append,
      List.mem_cons, List.not_mem_nil, or_false] at hc
    have hb : b < 256 := h b (List.mem_cons_self b t)
    rcases hc with (hc | hc) | hc
    · exact hc ▸ hexChar_isHexLower (b / 16) (by omega)
    · exact hc ▸ hexChar_isHexLower (b % 16) (by omega)
    · exact ih (fun x hx => h x (List.mem_cons_of_mem b hx)) c hc

/-- Behaviour of randomString on any drawn byte list: exactly `n` lowercase
hex characters, and only the first ⌈n/2⌉ bytes influence the result (the
truncation keeps N/2 bytes' worth of entropy). -/
theorem randomString_spec (n : Nat) (bytes : List Nat) (hlen : bytes.length = n)
    (hb : ∀ b ∈ bytes, b < 256) :
    (randomString n bytes).length = n ∧
    (∀ c ∈ (randomString n bytes).data, isHexLowerChar c = true) ∧
    randomString n bytes = String.mk ((hexEncode (bytes.take ((n + 1) / 2))).take n) := by
  refine ⟨?_, ?_, ?_⟩
  · show ((hexEncode bytes).take n).length = n
    rw [List.length_take, hexEncode_length, hlen]
    omega
  · intro c hc
    have hc2 : c ∈ hexEncode bytes := List.take_subset n _ hc
    exact hexEncode_chars bytes hb c hc2
  · unfold randomString
    rw [hexEncode_take bytes ((n + 1) / 2), List.take_take]
    have : min n (2 * ((n + 1) / 2)) = n := by omega
    rw [this]

theorem toDigitsCore_ten_lt_pow : ∀ (f n : Nat), n < f →
    n < 10 ^ (Nat.toDigitsCore 10 f n []).length := by
  intro f
  induction f with
  | zero => intro n h; omega
  | succ f ih =>
    intro n h
    rw [Nat.toDigitsCore]
    by_cases hz : n / 10 = 0
    · rw [if_pos hz]
      have : n < 10 := by omega
      simpa using this
    · rw [if_neg hz]
      rw [Nat.toDigitsCore_lens_eq]
      have hn : 0 < n := by
        rcases Nat.eq_zero_or_pos n with h0 | h0
        · exact absurd (by simp [h0]) hz
        · exact h0
      have hlt : n / 10 < f := lt_of_lt_of_le (Nat.div_lt_self hn (by omega)) (by omega)
      have := ih (n / 10) hlt
      rw [pow_succ]
      have hmod := Nat.div_add_mod n 10
      have hm : n % 10 < 10 := Nat.mod_lt n (by omega)
      set L := (Nat.toDigitsCore 10 f (n / 10) []).length with hL
      omega

theorem repr_length_of_year (y : Nat) (h1 : 1000 ≤ y) (h2 : y < 10000) :
    (Nat.repr y).length = 4 := by
  have hub : (Nat.repr y).length ≤ 4 := Nat.repr_length y 4 (by omega) (by norm_num; omega)
  have hlb : y < 10 ^ (Nat.repr y).length := by
    have : Nat.repr y = (Nat.toDigitsCore 10 (y + 1) y []).asString := rfl
    rw [this]
    show y < 10 ^ (Nat.toDigitsCore 10 (y + 1) y []).length
    exact toDigitsCore_ten_lt_pow (y + 1) y (by omega)
  by_contra hne
  have h3 : (Nat.repr y).length ≤ 3 := by omega
  have : (10 : Nat) ^ (Nat.repr y).length ≤ 10 ^ 3 :=
    Nat.pow_le_pow_right (by omega) h3
  omega

theorem digitChar_isDigit : ∀ m, m < 10 → (Nat.digitChar m).isDigit = true := by decide

theorem toDigitsCore_ten_digits : ∀ (f n : Nat) (acc : List Char),
    (∀ c ∈ acc, c.isDigit = true) → ∀ c ∈ Nat.toDigitsCore 10 f n acc, c.isDigit = true := by
  intro f
  induction f with
  | zero => intro n acc hacc; exact hacc
  | succ f ih =>
    intro n acc hacc c hc
    rw [Nat.toDigitsCore] at hc
    by_cases hz : n / 10 = 0
    · rw [if_pos hz] at hc
      rcases List.mem_cons.mp hc with h | h
      · exact h ▸ digitChar_isDigit (n % 10) (Nat.mod_lt n (by omega))
      · exact hacc c h
    · rw [if_neg hz] at hc
      refine ih (n / 10) _ ?_ c hc
      intro c' hc'
      rcases List.mem_cons.mp hc' with h | h
      · exact h ▸ digitChar_isDigit (n % 10) (Nat.mod_lt n (by omega))
      · exact hacc c' h

theorem repr_digits (n : Nat) : ∀ c ∈ (Nat.repr n).data, c.isDigit = true := by
  intro c hc
  have : (Nat.repr n).data = Nat.toDigitsCore 10 (n + 1) n [] := rfl
  rw [this] at hc
  exact toDigitsCore_ten_digits (n + 1) n [] (by simp) c hc

theorem pad_spec : ∀ n, n < 100 →
    (pad n).length = 2 ∧ ∀ c ∈ (pad n).data, c.isDigit = true := by
  have h : ∀ n, n < 100 → (pad n).length = 2 ∧ (pad n).data.all Char.isDigit = true := by
    decide
  intro n hn
  refine ⟨(h n hn).1, ?_⟩
  intro c hc
  exact List.all_eq_true.mp (h n hn).2 c hc

/-- Format of dateStr on in-range components (real wall-clock values are
always in range): exactly 14 characters, all decimal digits, matching
YYYYMMDDHHMMSS with zero-padded two-digit components. -/
theorem dateStr_format (y mo d h mi s : Nat) (hy1 : 1000 ≤ y) (hy2 : y < 10000)
    (hmo : mo < 100) (hd : d < 100) (hh : h < 100) (hmi : mi < 100) (hs : s < 100) :
    (dateStr y mo d h mi s).length = 14 ∧
    ∀ c ∈ (dateStr y mo d h mi s).data, c.isDigit = true := by
  have hrepr : toString y = Nat.repr y := rfl
  constructor
  · rw [dateStr]
    simp only [String.length_append, hrepr]
    rw [repr_length_of_year y hy1 hy2, (pad_spec mo hmo).1, (pad_spec d hd).1,
      (pad_spec h hh).1, (pad_spec mi hmi).1, (pad_spec s hs).1]
  · intro c hc
    rw [dateStr] at hc
    simp only [String.data_append, List.mem_append, hrepr] at hc
    rcases hc with ((((hc | hc) | hc) | hc) | hc) | hc
    · exact repr_digits y c hc
    · exact (pad_spec mo hmo).2 c hc
    · exact (pad_spec d hd).2 c hc
    · exact (pad_spec h hh).2 c hc
    · exact (pad_spec mi hmi).2 c hc
    · exact (pad_spec s hs).2 c hc

theorem signOrg_get_date_falsy (cfg : Config) (prifix now rnd : String) (data : Obj)
    (hd : jsTruthy (data.get "date") = false) :
    (signOrg cfg prifix now rnd data).get "date" = some (.str now) := by
  rw [signOrg_eq, Obj.get_set_ne _ _ _ _ (by decide)]
  simp only [injectDefaults]
  rw [hd]
  simp only [Bool.false_eq_true, if_false]
  by_cases hr : jsTruthy ((data.set "date" (Value.str now)).get "random") = true
  · rw [if_pos hr, Obj.get_set_self]
  · rw [if_neg hr, Obj.get_set_ne _ _ _ _ (by decide), Obj.get_set_self]

theorem signOrg_get_random_falsy (cfg : Config) (prifix now rnd : String) (data : Obj)
    (hr : jsTruthy (data.get "random") = false) :
    (signOrg cfg prifix now rnd data).get "random" = some (.str rnd) := by
  rw [signOrg_eq, Obj.get_set_ne _ _ _ _ (by decide)]
  simp only [injectDefaults]
  by_cases hd : jsTruthy (data.get "date") = true
  · rw [if_pos hd, hr]
    simp only [Bool.false_eq_true, if_false]
    rw [Obj.get_set_self]
  · rw [if_neg hd]
    have h2 : (data.set "date" (Value.str now)).get "random" = data.get "random" :=
      Obj.get_set_ne _ _ _ _ (by decide)
    rw [h2, hr]
    simp only [Bool.false_eq_true, if_false]
    rw [Obj.get_set_self]

theorem signOrg_get_random_truthy (cfg : Config) (prifix now rnd : String) (data : Obj)
    (hr : jsTruthy (data.get "random") = true) :
    (signOrg cfg prifix now rnd data).get "random" = data.get "random" := by
  rw [signOrg_eq, Obj.get_set_ne _ _ _ _ (by decide)]
  simp only [injectDefaults]
  by_cases hd : jsTruthy (data.get "date") = true
  · rw [if_pos hd, if_pos hr]
  · rw [if_neg hd]
    have h2 : (data.set "date" (Value.str now)).get "random" = data.get "random" :=
      Obj.get_set_ne _ _ _ _ (by decide)
    rw [h2, if_pos hr]
    exact h2

theorem signOrg_get_date_truthy (cfg : Config) (prifix now rnd : String) (data : Obj)
    (hd : jsTruthy (data.get "date") = true) :
    (signOrg cfg prifix now rnd data).get "date" = data.get "date" := by
  rw [signOrg_eq, Obj.get_set_ne _ _ _ _ (by decide)]
  simp only [injectDefaults]
  rw [if_pos hd]
  by_cases hr : jsTruthy (data.get "random") = true
  · rw [if_pos hr]
  · rw [if_neg hr, Obj.get_set_ne _ _ _ _ (by decide)]

theorem signOrg_get_other (cfg : Config) (prifix now rnd : String) (data : Obj)
    (k : String) (h1 : k ≠ "date") (h2 : k ≠ "random") (h3 : k ≠ "sign") :
    (signOrg cfg prifix now rnd data).get k = data.get k := by
  rw [signOrg_eq, Obj.get_set_ne _ _ _ _ h3]
  simp only [injectDefaults]
  by_cases hd : jsTruthy (data.get "date") = true
  · rw [if_pos hd]
    by_cases hr : jsTruthy (data.get "random") = true
    · rw [if_pos hr]
    · rw [if_neg hr, Obj.get_set_ne _ _ _ _ h2]
  · rw [if_neg hd]
    by_cases hr : jsTruthy ((data.set "date" (Value.str now)).get "random") = true
    · rw [if_pos hr, Obj.get_set_ne _ _ _ _ h1]
    · rw [if_neg hr, Obj.get_set_ne _ _ _ _ h2, Obj.get_set_ne _ _ _ _ h1]

/-- C5 (amended): _signOrg populates the date and random fields when they
are ABSENT OR FALSY (JS truthiness: empty string, 0), with the current
time formatted YYYYMMDDHHMMSS and the 16-character lowercase-hex nonce;
fields carrying truthy values are left untouched. -/
theorem c5_default_injection (cfg : Config) (prifix : String) (data : Obj)
    (y mo d h mi s : Nat) (bytes : List Nat)
    (hy1 : 1000 ≤ y) (hy2 : y < 10000) (hmo : mo < 100) (hd : d < 100)
    (hh : h < 100) (hmi : mi < 100) (hs : s < 100)
    (hblen : bytes.length = 16) (hbv : ∀ b ∈ bytes, b < 256) :
    (jsTruthy (data.get "date") = false →
      (signOrg cfg prifix (dateStr y mo d h mi s) (randomString 16 bytes) data).get "date" =
        some (.str (dateStr y mo d h mi s))) ∧
    (jsTruthy (data.get "random") = false →
      (signOrg cfg prifix (dateStr y mo d h mi s) (randomString 16 bytes) data).get "random" =
        some (.str (randomString 16 bytes))) ∧
    ((dateStr y mo d h mi s).length = 14 ∧
      ∀ c ∈ (dateStr y mo d h mi s).data, c.isDigit = true) ∧
    ((randomString 16 bytes).length = 16 ∧
      ∀ c ∈ (randomString 16 bytes).data, isHexLowerChar c = true) ∧
    (jsTruthy (data.get "date") = true → jsTruthy (data.get "random") = true →
      (signOrg cfg prifix (dateStr y mo d h mi s) (randomString 16 bytes) data).get "date" =
          data.get "date" ∧
        (signOrg cfg prifix (dateStr y mo d h mi s) (randomString 16 bytes) data).get
          "random" = data.get "random") := by
  refine ⟨?_, ?_, ?_, ?_, ?_⟩
  · exact signOrg_get_date_falsy cfg prifix _ _ data
  · exact signOrg_get_random_falsy cfg prifix _ _ data
  · exact dateStr_format y mo d h mi s hy1 hy2 hmo hd hh hmi hs
  · have hspec := randomString_spec 16 bytes hblen hbv
    exact ⟨hspec.1, hspec.2.1⟩
  · intro hdt hrt
    exact ⟨signOrg_get_date_truthy cfg prifix _ _ data hdt,
      signOrg_get_random_truthy cfg prifix _ _ data hrt⟩

/-- C5 (witness): the amended statement at a concrete date and byte draw,
on a payload lacking both fields, a payload holding a present-but-falsy
date (empty string, replaced), and a payload carrying truthy values
(kept). -/
theorem c5_default_injection_witness :
    (signOrg cfg0 "p" (dateStr 2020 1 2 3 4 5) (randomString 16 (List.range 16))
      [("a", Value.str "1")]).get "date" = some (.str (dateStr 2020 1 2 3 4 5)) ∧
    (signOrg cfg0 "p" (dateStr 2020 1 2 3 4 5) (randomString 16 (List.range 16))
      [("a", Value.str "1")]).get "random" =
        some (.str (randomString 16 (List.range 16))) ∧
    (signOrg cfg0 "p" (dateStr 2020 1 2 3 4 5) (randomString 16 (List.range 16))
      [("date", Value.str ""), ("random", Value.str "r")]).get "date" =
        some (.str (dateStr 2020 1 2 3 4 5)) ∧
    (signOrg cfg0 "p" (dateStr 2020 1 2 3 4 5) (randomString 16 (List.range 16))
      [("date", Value.str "D"), ("random", Value.str "R")]).get "date" =
        some (Value.str "D") := by
  have h1 := c5_default_injection cfg0 "p" [("a", Value.str "1")] 2020 1 2 3 4 5
    (List.range 16) (by omega) (by omega) (by omega) (by omega) (by omega) (by omega)
    (by omega) (by decide) (by decide)
  have h2 := c5_default_injection cfg0 "p"
    [("date", Value.str "D"), ("random", Value.str "R")] 2020 1 2 3 4 5
    (List.range 16) (by omega) (by omega) (by omega) (by omega) (by omega) (by omega)
    (by omega) (by decide) (by decide)
  have h3 := c5_default_injection cfg0 "p"
    [("date", Value.str ""), ("random", Value.str "r")] 2020 1 2 3 4 5
    (List.range 16) (by omega) (by omega) (by omega) (by omega) (by omega) (by omega)
    (by omega) (by decide) (by decide)
  exact ⟨h1.1 (by decide), h1.2.1 (by decide), h3.1 (by decide),
    ((h2.2.2.2.2 (by decide) (by decide)).1).trans (by decide)⟩

/-- C5 (counterexample to the claim as stated): a payload that HAS a date
field (holding the empty string) does not keep it: _signOrg overwrites any
falsy value, because the source checks truthiness (!data.date), not
presence. -/
theorem c5_counterexample :
    Obj.get [("date", Value.str ""), ("random", Value.str "r")] "date" =
      some (Value.str "") ∧
    (signOrg cfg0 "p" "20200102030405" "00ff00ff00ff00ff"
      [("date", Value.str ""), ("random", Value.str "r")]).get "date" =
        some (Value.str "20200102030405") := by decide

/-- C7: randomString N (on the N random bytes the code draws, each below
256) yields exactly N lowercase-hex characters, equal to the hex encoding
of the first ⌈N/2⌉ bytes truncated to N characters (so only N/2 bytes of
entropy reach the output). -/
theorem c7_random_nonce_length (n : Nat) (bytes : List Nat) (hlen : bytes.length = n)
    (hb : ∀ b ∈ bytes, b < 256) :
    (randomString n bytes).length = n ∧
    (∀ c ∈ (randomString n bytes).data, isHexLowerChar c = true) ∧
    randomString n bytes = String.mk ((hexEncode (bytes.take ((n + 1) / 2))).take n) :=
  randomString_spec n bytes hlen hb

/-- C7 (witness): concrete 16-byte draw. -/
theorem c7_random_nonce_length_witness :
    (randomString 16 (List.range 16)).length = 16 ∧
    (∀ c ∈ (randomString 16 (List.range 16)).data, isHexLowerChar c = true) ∧
    randomString 16 (List.range 16) =
      String.mk ((hexEncode ((List.range 16).take 8)).take 16) :=
  c7_random_nonce_length 16 (List.range 16) (by decide) (by decide)

theorem verifyResponsFull_skip (cfg : Config) (res : Obj)
    (h : cfg.publicKey = "" ∨ jsTruthy (res.get "sign") = false) :
    verifyResponsFull cfg res = (false, res) := by
  have hcond : (cfg.publicKey == "" || !jsTruthy (res.get "sign")) = true := by
    rcases h with h | h
    · simp [h]
    · simp [h]
  rw [verifyResponsFull, hcond]
  simp

theorem verifyResponsFull_run (cfg : Config) (res : Obj)
    (hpk : cfg.publicKey ≠ "") (ht : jsTruthy (res.get "sign") = true) :
    verifyResponsFull cfg res =
      (cfg.scheme.verify (canonicalize (res.delete "sign")) (res.getStr "sign"),
        res.delete "sign") := by
  have hcond : (cfg.publicKey == "" || !jsTruthy (res.get "sign")) = false := by
    simp [hpk, ht]
  rw [verifyResponsFull, hcond]
  simp

/-- C6: the verifier fails closed: verifyRespons is a total boolean
function that returns false when no public key was configured, when the
response has no sign field, and (for an ideal matching key pair) when the
carried signature does not match the canonical string of the remaining
fields — never an exception. -/
theorem c6_verifier_fails_closed (cfg : Config) (res : Obj) :
    (cfg.publicKey = "" → verifyRespons cfg res = false) ∧
    (res.get "sign" = none → verifyRespons cfg res = false) ∧
    (cfg.scheme.Ideal → ∀ sg : String, res.get "sign" = some (.str sg) →
      sg ≠ cfg.scheme.sign (canonicalize (res.delete "sign")) →
      verifyRespons cfg res = false) := by
  refine ⟨?_, ?_, ?_⟩
  · intro h
    unfold verifyRespons
    rw [verifyResponsFull_skip cfg res (Or.inl h)]
  · intro h
    have ht : jsTruthy (res.get "sign") = false := by rw [h]; rfl
    unfold verifyRespons
    rw [verifyResponsFull_skip cfg res (Or.inr ht)]
  · intro hideal sg hget hne
    by_cases hz : sg = ""
    · have ht : jsTruthy (res.get "sign") = false := by
        rw [hget, hz]
        rfl
      unfold verifyRespons
      rw [verifyResponsFull_skip cfg res (Or.inr ht)]
    · by_cases hpk : cfg.publicKey = ""
      · unfold verifyRespons
        rw [verifyResponsFull_skip cfg res (Or.inl hpk)]
      · have ht : jsTruthy (res.get "sign") = true := by
          rw [hget]
          simp [jsTruthy, Value.truthy, hz]
        unfold verifyRespons
        rw [verifyResponsFull_run cfg res hpk ht]
        have hgets : res.getStr "sign" = sg := by
          simp [Obj.getStr, hget, Value.toStr]
        simp only [hgets]
        by_contra hb
        rw [Bool.not_eq_false] at hb
        exact hne ((hideal.1 _ _).mp hb)

/-- C6 (witness): the three fail-closed situations at concrete inputs: no
configured key, missing sign field, mismatched signature. -/
theorem c6_verifier_fails_closed_witness :
    verifyRespons cfgNoPub [("a", Value.str "1"), ("sign", Value.str "B64:a=1")] = false ∧
    verifyRespons cfg0 [("a", Value.str "1")] = false ∧
    verifyRespons cfg0 [("a", Value.str "1"), ("sign", Value.str "WRONG")] = false := by
  refine ⟨(c6_verifier_fails_closed cfgNoPub _).1 rfl,
    (c6_verifier_fails_closed cfg0 [("a", Value.str "1")]).2.1 (by decide),
    (c6_verifier_fails_closed cfg0 _).2.2 b64Scheme_ideal "WRONG" (by decide) (by decide)⟩

/-- C8: a non-200 HTTPS status rejects with an error object carrying the
status code in both fields, independently of the body (no body read, no
JSON parse); the parse runs only on a 200 status. -/
theorem c8_non200_rejects {α : Type} (parse : String → α) (statusCode : Nat)
    (body body' : String) (h : statusCode ≠ 200) :
    handleResponse parse statusCode body = .httpError statusCode statusCode ∧
    handleResponse parse statusCode body = handleResponse parse statusCode body' ∧
    handleResponse parse 200 body = .ok (parse body) := by
  refine ⟨?_, ?_, ?_⟩ <;> simp [handleResponse, h]

/-- C8 (witness): a concrete 404 with different bodies and a 200. -/
theorem c8_non200_rejects_witness :
    handleResponse String.length 404 "notjson" = .httpError 404 404 ∧
    handleResponse String.length 404 "notjson" = handleResponse String.length 404 "{}" ∧
    handleResponse String.length 200 "notjson" = .ok 7 := by
  have h := c8_non200_rejects String.length 404 "notjson" "{}" (by omega)
  exact ⟨h.1, h.2.1, h.2.2.trans (by decide)⟩

/-- C9: increaseTreasure and queryIncreaseTreasure pre-populate random
with the Date.now() reading (nonzero in reality), so the hex-nonce default
of _signOrg is never applied there, and increaseTreasure also carries
refToken = Date.now(). -/
theorem c9_treasure_random_prepopulated (cfg : Config) (openid : String) (amount : Int)
    (now1 now2 nowq : Int) (refToken : String) (now rnd : String)
    (h1 : now1 ≠ 0) (hq : nowq ≠ 0) :
    (increaseTreasureSigned cfg openid amount now1 now2 now rnd).get "random" =
      some (.num now1) ∧
    (increaseTreasureSigned cfg openid amount now1 now2 now rnd).get "refToken" =
      some (.num now2) ∧
    (queryIncreaseTreasureSigned cfg openid refToken nowq now rnd).get "random" =
      some (.num nowq) := by
  refine ⟨?_, ?_, ?_⟩
  · have hr : (increaseTreasureData cfg openid amount now1 now2).get "random" =
        some (.num now1) := rfl
    have ht : jsTruthy ((increaseTreasureData cfg openid amount now1 now2).get "random") =
        true := by
      rw [hr]
      simp [jsTruthy, Value.truthy, h1]
    rw [increaseTreasureSigned, signJson, signOrg_get_random_truthy _ _ _ _ _ ht, hr]
  · rw [increaseTreasureSigned, signJson,
      signOrg_get_other _ _ _ _ _ "refToken" (by decide) (by decide) (by decide)]
    rfl
  · have hr : (queryIncreaseTreasureData cfg openid refToken nowq).get "random" =
        some (.num nowq) := rfl
    have ht : jsTruthy ((queryIncreaseTreasureData cfg openid refToken nowq).get "random") =
        true := by
      rw [hr]
      simp [jsTruthy, Value.truthy, hq]
    rw [queryIncreaseTreasureSigned, signJson, signOrg_get_random_truthy _ _ _ _ _ ht, hr]

/-- C9 (witness): concrete Date.now() readings. -/
theorem c9_treasure_random_prepopulated_witness :
    (increaseTreasureSigned cfg0 "oid" 5 1700000000000 1700000000001
      "20200102030405" "00ff00ff00ff00ff").get "random" = some (.num 1700000000000) ∧
    (increaseTreasureSigned cfg0 "oid" 5 1700000000000 1700000000001
      "20200102030405" "00ff00ff00ff00ff").get "refToken" = some (.num 1700000000001) ∧
    (queryIncreaseTreasureSigned cfg0 "oid" "tok" 1700000000002
      "20200102030405" "00ff00ff00ff00ff").get "random" = some (.num 1700000000002) :=
  c9_treasure_random_prepopulated cfg0 "oid" 5 1700000000000 1700000000001 1700000000002
    "tok" "20200102030405" "00ff00ff00ff00ff" (by omega) (by omega)

theorem startsWithChars_iff : ∀ (hay pat : List Char),
    startsWithChars hay pat = true ↔ pat <+: hay
  | _, [] => by simp [startsWithChars]
  | [], _ :: _ => by simp [startsWithChars]
  | a :: as, b :: bs => by
    rw [startsWithChars, Bool.and_eq_true, beq_iff_eq, List.cons_prefix_cons,
      startsWithChars_iff as bs, eq_comm]

theorem strIndexOf_zero_iff (hay pat : List Char) :
    strIndexOf hay pat = some 0 ↔ startsWithChars hay pat = true := by
  unfold strIndexOf
  rw [List.range_succ_eq_map]
  by_cases h : startsWithChars (hay.drop 0) pat = true
  · rw [List.find?_cons_of_pos _ (by simpa using h)]
    simpa using h
  · rw [List.find?_cons_of_neg _ (by simpa using h)]
    rw [List.drop_zero] at h
    constructor
    · intro heq
      have := List.mem_of_find?_eq_some heq
      simp [List.mem_map] at this
    · intro hsw
      exact absurd hsw h

/-- C10: the callback field getApproval places in the payload before
signing is the callback itself when it starts with "http" (indexOf
returning 0), and "javascript:" prepended to it otherwise. -/
theorem c10_callback_normalisation (cfg : Config) (state cb : String) :
    ("http".data <+: cb.data →
      (getApprovalData cfg state cb).get "callback" = some (.str cb)) ∧
    (¬ "http".data <+: cb.data →
      (getApprovalData cfg state cb).get "callback" =
        some (.str ("javascript:" ++ cb))) := by
  have hget : (getApprovalData cfg state cb).get "callback" =
      some (.str (approvalCallback cb)) := rfl
  constructor
  · intro h
    have hidx : strIndexOf cb.data "http".data = some 0 :=
      (strIndexOf_zero_iff _ _).mpr ((startsWithChars_iff _ _).mpr h)
    rw [hget, approvalCallback, if_pos (by rw [hidx]; rfl)]
  · intro h
    have hsw : startsWithChars cb.data "http".data = false := by
      rw [Bool.eq_false_iff]
      intro hc
      exact h ((startsWithChars_iff _ _).mp hc)
    have hidx : strIndexOf cb.data "http".data ≠ some 0 := by
      intro hc
      rw [(strIndexOf_zero_iff _ _).mp hc] at hsw
      cases hsw
    rw [hget, approvalCallback, if_neg (by simpa using hidx)]

/-- C10 (witness): a callback starting with http passes through, one that
does not gets the javascript: prefix. -/
theorem c10_callback_normalisation_witness :
    (getApprovalData cfg0 "s1" "http://cb").get "callback" =
      some (.str "http://cb") ∧
    (getApprovalData cfg0 "s1" "alert(1)").get "callback" =
      some (.str ("javascript:" ++ "alert(1)")) :=
  ⟨(c10_callback_normalisation cfg0 "s1" "http://cb").1 (by decide),
    (c10_callback_normalisation cfg0 "s1" "alert(1)").2 (by decide)⟩
